import Mathlib

open Matrix

/-!
Verification of the CLF QP whole-body controller
(`src/controllers/clf_controller.py`, class `CLFController`).

The development shallowly embeds the per-tick control law:

* the foot bookkeeping (`contact_feet`, `swing_feet`, masked selection of
  per-foot data, lines 98-147 of `ControlLaw`) as `List`-valued functions;
* the stacked task vector and Jacobian construction (lines 150-172);
* the Lyapunov data built in `__init__` (`F`, `G`, `Q`, `R`, `P`, `gamma`,
  lines 16-26) over the block index type `Fin 6 ⊕ Fin 6`;
* the QP pieces `AddVdotCost`, `AddVdotConstraint` (lines 28-58), the
  constraint-assembly order of lines 192-212, and the solve / logging tail
  of lines 214-225.

The rigid-body dynamics engine, the Riccati solver and the QP solver are
external collaborators of the program: everything that comes from them is
modelled from the specification and is marked `Modelled from the spec:` in
its doc comment.
-/

/-! ### Foot bookkeeping (ControlLaw, lines 98-101)

`contact_feet` is the list of per-foot boolean contact flags read from the
trunk setpoint; `swing_feet` is its elementwise negation
(`[not foot for foot in contact_feet]`). -/

/-- Elementwise negation of the contact flags:
`swing_feet = [not foot for foot in contact_feet]` (line 99). -/
def swing_feet (contact_feet : List Bool) : List Bool :=
  contact_feet.map (fun b => !b)

/-- `num_contact = sum(contact_feet)` (line 100). -/
def num_contact (contact_feet : List Bool) : ℕ :=
  contact_feet.count true

/-- `num_swing = sum(swing_feet)` (line 101). -/
def num_swing (contact_feet : List Bool) : ℕ :=
  (swing_feet contact_feet).count true

/-- Numpy boolean-mask selection `arr[mask]`, as used at lines 115-117 and
140-147: keeps, in order, the entries whose flag is `true`. -/
def maskSelect {α : Type} : List Bool → List α → List α
  | [], _ => []
  | _, [] => []
  | b :: bs, x :: xs =>
      if b then x :: maskSelect bs xs else maskSelect bs xs

/-- One entry per contact-force decision variable:
`f_c = [mp.NewContinuousVariables(3,1) for j in range(num_contact)]`
(line 189).  Each element stands for one 3-vector force variable. -/
def f_c_vars (contact_feet : List Bool) : List ℕ :=
  List.range (num_contact contact_feet)

/-! ### Stacked task vector and Jacobian (ControlLaw, lines 150-172) -/

/-- The stacked measured/desired task vector
`x = hstack([rpy_body, p_body, p_s.flatten()])` (lines 158, 163), where
`p_s` is the swing-foot selection `p_feet[swing_feet]`. -/
def taskVec (contact_feet : List Bool) (rpy_body p_body : List ℝ)
    (p_feet : List (List ℝ)) : List ℝ :=
  rpy_body ++ p_body ++ (maskSelect (swing_feet contact_feet) p_feet).flatten

/-- The stacked Jacobian of lines 150-155, kept abstract in its rows:
`J = vstack([J_body, vstack(J_s)])` if any foot is swinging, else
`J = J_body`.  `α` is the row type. -/
def stackedRows {α : Type} (contact_feet : List Bool) (body : List α)
    (feet : List (List α)) : List α :=
  if (swing_feet contact_feet).any id then
    body ++ (maskSelect (swing_feet contact_feet) feet).flatten
  else
    body

/-! ### Orientation-rate conversion (ControlLaw, lines 125-128 and 157-172)

`RPY_body` is constructed once from the **measured** body rotation
(line 125), and all three conversions between roll-pitch-yaw rates and
angular velocities (lines 159, 164, 167) are method calls on that one
object.  The conversion itself is a Drake collaborator; it is kept
abstract as a function `conv` of the rpy vector of the object it is
called on and of the rate vector passed in. -/

/-- Measured stacked task velocity
`xd = hstack([RPY_body.CalcAngularVelocityInParentFromRpyDt(rpyd_body),
pd_body, pd_s.flatten()])` (lines 159-161). -/
def xd_meas (conv : List ℝ → List ℝ → List ℝ)
    (rpy_body rpyd_body pd_body : List ℝ) (pd_s : List (List ℝ)) : List ℝ :=
  conv rpy_body rpyd_body ++ pd_body ++ pd_s.flatten

/-- Nominal stacked task velocity (lines 164-166).  The conversion is
called on `RPY_body`, so its orientation argument is the **measured**
`rpy_body`; the nominal orientation `rpy_body_nom` is in scope in the
source (line 107) but unused here, which the unused binder records. -/
def xd_nom_vec (conv : List ℝ → List ℝ → List ℝ)
    (rpy_body _rpy_body_nom rpyd_body_nom pd_body_nom : List ℝ)
    (pd_s_nom : List (List ℝ)) : List ℝ :=
  conv rpy_body rpyd_body_nom ++ pd_body_nom ++ pd_s_nom.flatten

/-- Nominal stacked task acceleration target (lines 167-169), again
converted through the measured-orientation object `RPY_body`. -/
def xdd_nom_vec (conv : List ℝ → List ℝ → List ℝ)
    (rpy_body _rpy_body_nom rpydd_body_nom pdd_body_nom : List ℝ)
    (pdd_s_nom : List (List ℝ)) : List ℝ :=
  conv rpy_body rpydd_body_nom ++ pdd_body_nom ++ pdd_s_nom.flatten

/-- Elementwise difference `x - x_nom` (lines 171-172). -/
def vec_sub (x x_nom : List ℝ) : List ℝ :=
  List.zipWith (fun a b => a - b) x x_nom

/-! ### Lyapunov certificate data (`__init__`, lines 14-26)

The error state is `eta = [x_tilde; xd_tilde]` with a 6-dimensional task
block, so `eta` is indexed by `Fin 6 ⊕ Fin 6` and the `np.block` matrices
of lines 16-19 are `Matrix.fromBlocks` / `Matrix.fromRows` values. -/

/-- `F = [[0, I], [0, 0]]` (lines 16-17): the double-integrator template
of the task-space error dynamics `eta_dot = F eta + G nu`. -/
def Fmat : Matrix (Fin 6 ⊕ Fin 6) (Fin 6 ⊕ Fin 6) ℝ :=
  Matrix.fromBlocks 0 1 0 0

/-- `G = [[0], [I]]` (lines 18-19): `nu = xdd_tilde` enters the velocity
error channel. -/
def Gmat : Matrix (Fin 6 ⊕ Fin 6) (Fin 6) ℝ :=
  Matrix.fromRows 0 1

/-- `Q = 100 * eye(12)` (line 21). -/
def Qmat : Matrix (Fin 6 ⊕ Fin 6) (Fin 6 ⊕ Fin 6) ℝ :=
  (100 : ℝ) • 1

/-- `R = eye(6)` (line 22). -/
def Rmat : Matrix (Fin 6) (Fin 6) ℝ :=
  1

/-- A 12 x 12 matrix given by four 6 x 6 blocks that are scalar multiples
of the identity, the shape of all matrices appearing in the certificate
computation. -/
def blk (a b c d : ℝ) : Matrix (Fin 6 ⊕ Fin 6) (Fin 6 ⊕ Fin 6) ℝ :=
  Matrix.fromBlocks (a • 1) (b • 1) (c • 1) (d • 1)

/-- Modelled from the spec: `ContinuousAlgebraicRiccatiEquation` (line 24)
is the external Riccati-solver collaborator, which by the specification
returns the symmetric positive-definite stabilizing solution `P` of
`Fᵀ P + P F - P G R⁻¹ Gᵀ P + Q = 0`.  For the concrete `Fmat`, `Gmat`,
`Qmat`, `Rmat` above, that solution is the closed-form block matrix
`P = [[10 √120 I, 10 I], [10 I, √120 I]]`; the theorems
`careP_solves_riccati`, `careP_posDef` and `careP_eigenvalue_bound` below
justify this modelling. -/
noncomputable def careP : Matrix (Fin 6 ⊕ Fin 6) (Fin 6 ⊕ Fin 6) ℝ :=
  blk (10 * Real.sqrt 120) 10 10 (Real.sqrt 120)

/-- Modelled from the spec: the value of `np.min(np.linalg.eigvals(Q))`
(line 26), the smallest eigenvalue of `Qmat = 100 I`.  Justified by
`Qmat_eigenvalues` below. -/
def lamMinQ : ℝ := 100

/-- Modelled from the spec: the value of `np.max(np.linalg.eigvals(P))`
(line 26), the largest eigenvalue of `careP`.  Justified by
`careP_eigenvalue_bound` and `careP_eigenvalue_attained` below. -/
noncomputable def lamMaxP : ℝ := 11 * Real.sqrt 120 / 2 + Real.sqrt 2530

/-- An eigenvector of `careP` for its largest eigenvalue `lamMaxP`,
supported on the first coordinate of each block. -/
noncomputable def vPlus : Fin 6 ⊕ Fin 6 → ℝ :=
  Sum.elim (fun i => if i = 0 then (10 : ℝ) else 0)
    (fun i => if i = 0 then lamMaxP - 10 * Real.sqrt 120 else 0)


/-- The controller state set up by `__init__`: the fields `self.F`,
`self.G`, `self.P` and `self.gamma` that `ControlLaw` and its helpers
read. -/
structure Controller where
  P : Matrix (Fin 6 ⊕ Fin 6) (Fin 6 ⊕ Fin 6) ℝ
  F : Matrix (Fin 6 ⊕ Fin 6) (Fin 6 ⊕ Fin 6) ℝ
  G : Matrix (Fin 6 ⊕ Fin 6) (Fin 6) ℝ
  gamma : ℝ

/-- The controller instance built by `__init__` (lines 16-26):
`gamma = min(eigvals(Q)) / max(eigvals(P))`. -/
noncomputable def clfController : Controller :=
  { P := careP, F := Fmat, G := Gmat, gamma := lamMinQ / lamMaxP }

/-- `eta = np.hstack([x_tilde, xd_tilde])` (lines 36, 48, 220). -/
def eta (x_tilde xd_tilde : Fin 6 → ℝ) : Fin 6 ⊕ Fin 6 → ℝ :=
  Sum.elim x_tilde xd_tilde

/-- `V = eta.T @ self.P @ eta` (lines 49 and 221). -/
def Controller.lyapV (self : Controller) (x_tilde xd_tilde : Fin 6 → ℝ) : ℝ :=
  (eta x_tilde xd_tilde ᵥ* self.P) ⬝ᵥ eta x_tilde xd_tilde

/-- The linear constraint built by `AddVdotConstraint` (lines 40-58):
row `A = hstack([2 eta.T P G J, -1])` acting on the stacked variable
`[vd; delta]`, lower bound `-inf` (encoded as `none`) and upper bound
`ub = -gamma V - 2 eta.T P F eta - 2 eta.T P G (Jdv - xdd_nom)`. -/
structure VdotConstraintData (nv : ℕ) where
  coeffVd : Fin nv → ℝ
  coeffDelta : ℝ
  lb : Option ℝ
  ub : ℝ

/-- `AddVdotConstraint` (lines 40-58), with `self.P`, `self.G`, `self.F`
and `self.gamma` read from the controller state. -/
def Controller.AddVdotConstraint (self : Controller) {nv : ℕ}
    (x_tilde xd_tilde : Fin 6 → ℝ) (J : Matrix (Fin 6) (Fin nv) ℝ)
    (Jdv xdd_nom : Fin 6 → ℝ) : VdotConstraintData nv :=
  { coeffVd := ((2 : ℝ) • eta x_tilde xd_tilde) ᵥ* self.P ᵥ* self.G ᵥ* J
    coeffDelta := -1
    lb := none
    ub := -self.gamma * self.lyapV x_tilde xd_tilde
      - (((2 : ℝ) • eta x_tilde xd_tilde) ᵥ* self.P ᵥ* self.F)
          ⬝ᵥ eta x_tilde xd_tilde
      - (((2 : ℝ) • eta x_tilde xd_tilde) ᵥ* self.P ᵥ* self.G)
          ⬝ᵥ (Jdv - xdd_nom) }

/-- Satisfaction of a one-row constraint `lb <= A [vd; delta] <= ub`
(line 51), where a `none` lower bound is `-inf` and therefore vacuous. -/
def VdotConstraintData.holds {nv : ℕ} (c : VdotConstraintData nv)
    (vd : Fin nv → ℝ) (delta : ℝ) : Prop :=
  (∀ lbv ∈ c.lb, lbv ≤ c.coeffVd ⬝ᵥ vd + c.coeffDelta * delta)
  ∧ c.coeffVd ⬝ᵥ vd + c.coeffDelta * delta ≤ c.ub

/-- Written from the words of the spec, for comparison with the code: the
Lyapunov derivative `Vdot = 2 etaᵀ P (F eta + G nu)` at the task-space
acceleration error `nu = J vd + Jdv - xdd_nom`. -/
def Controller.VdotSpec (self : Controller) {nv : ℕ}
    (x_tilde xd_tilde : Fin 6 → ℝ) (J : Matrix (Fin 6) (Fin nv) ℝ)
    (vd : Fin nv → ℝ) (Jdv xdd_nom : Fin 6 → ℝ) : ℝ :=
  ((2 : ℝ) • eta x_tilde xd_tilde)
    ⬝ᵥ (self.P *ᵥ (self.F *ᵥ eta x_tilde xd_tilde
        + self.G *ᵥ (J *ᵥ vd + Jdv - xdd_nom)))

/-- The diagnostic value recomputed at line 223 from the accepted
solution:
`Vdot = 2 eta.T P F eta + 2 eta.T P G (J vd + Jdv - xdd_nom)`. -/
def Controller.VdotLogged (self : Controller) {nv : ℕ}
    (x_tilde xd_tilde : Fin 6 → ℝ) (J : Matrix (Fin 6) (Fin nv) ℝ)
    (vd : Fin nv → ℝ) (Jdv xdd_nom : Fin 6 → ℝ) : ℝ :=
  (((2 : ℝ) • eta x_tilde xd_tilde) ᵥ* self.P ᵥ* self.F)
      ⬝ᵥ eta x_tilde xd_tilde
    + (((2 : ℝ) • eta x_tilde xd_tilde) ᵥ* self.P ᵥ* self.G)
        ⬝ᵥ (J *ᵥ vd + Jdv - xdd_nom)

/-- The quantities stored for logging after an accepted solve
(lines 219-223): `self.V`, `self.err = x_tilde.T @ x_tilde`, and
`self.Vdot`. -/
structure TickDiagnostics where
  V : ℝ
  err : ℝ
  Vdot : ℝ

/-- Lines 219-223 of `ControlLaw`, evaluated at the solved `vd`. -/
def Controller.tickDiagnostics (self : Controller) {nv : ℕ}
    (x_tilde xd_tilde : Fin 6 → ℝ) (J : Matrix (Fin 6) (Fin nv) ℝ)
    (vd : Fin nv → ℝ) (Jdv xdd_nom : Fin 6 → ℝ) : TickDiagnostics :=
  { V := self.lyapV x_tilde xd_tilde
    err := x_tilde ⬝ᵥ x_tilde
    Vdot := self.VdotLogged x_tilde xd_tilde J vd Jdv xdd_nom }

/-- The Euclidean norm of a task-space error vector, for comparison with
the stored `err` diagnostic. -/
noncomputable def euclNorm (x : Fin 6 → ℝ) : ℝ :=
  Real.sqrt (x ⬝ᵥ x)

/-- Modelled from the spec: the external Optimizer (line 214) returns a
success flag and, on success, optimal values of the decision variables;
only the fields read by lines 214-217 are kept. -/
structure SolveResult (nv na : ℕ) where
  success : Bool
  tauSol : Fin na → ℝ
  vdSol : Fin nv → ℝ

/-- The tail of `ControlLaw` (lines 214-225): `assert result.is_success()`
aborts with no returned torque on failure (`none`); on success the solved
`tau` is extracted and the diagnostics are recomputed at the solved `vd`.
-/
def Controller.solveTail (self : Controller) {nv na : ℕ}
    (x_tilde xd_tilde : Fin 6 → ℝ) (J : Matrix (Fin 6) (Fin nv) ℝ)
    (Jdv xdd_nom : Fin 6 → ℝ) (r : SolveResult nv na) :
    Option ((Fin na → ℝ) × TickDiagnostics) :=
  if r.success then
    some (r.tauSol,
      self.tickDiagnostics x_tilde xd_tilde J r.vdSol Jdv xdd_nom)
  else
    none

/-! ### Per-tick constraint assembly (ControlLaw, lines 184-212) -/

/-- The kinds of constraint added to the per-tick program, in source
order. -/
inductive QPConstraintKind where
  | clf
  | slackSign
  | dynamics
  | friction
  | noslip
  deriving DecidableEq

/-- The constraints added to the per-tick QP, in the order of
lines 199-212: the CLF inequality, the slack sign `delta <= 0`, the
dynamics equality, and — only when at least one foot is in contact —
the friction-pyramid and contact no-slip constraints. -/
def tick_constraints (contact_feet : List Bool) : List QPConstraintKind :=
  [QPConstraintKind.clf, QPConstraintKind.slackSign,
    QPConstraintKind.dynamics]
    ++ (if contact_feet.any id then
          [QPConstraintKind.friction, QPConstraintKind.noslip]
        else
          [])

/-- Modelled from the spec: `AddDynamicsConstraint` (line 205) lives in
the parent class `IDController`, whose file is not part of the sources;
the specification gives the constraint as
`M vd + Cv + tau_g = Sᵀ tau + Σ_j (J_c[j])ᵀ f_c[j]` over the contact
feet. -/
def dynamicsConstraint {nv na : ℕ} (M : Matrix (Fin nv) (Fin nv) ℝ)
    (Cv tau_g : Fin nv → ℝ) (S : Matrix (Fin na) (Fin nv) ℝ)
    (J_c : List (Matrix (Fin 3) (Fin nv) ℝ)) (f_c : List (Fin 3 → ℝ))
    (vd : Fin nv → ℝ) (tau : Fin na → ℝ) : Prop :=
  M *ᵥ vd + Cv + tau_g
    = Sᵀ *ᵥ tau + (List.zipWith (fun Jj fj => Jjᵀ *ᵥ fj) J_c f_c).sum

/-! Helper lemmas about the list machinery. -/

theorem maskSelect_length_le {α : Type} (mask : List Bool) (xs : List α) :
    (maskSelect mask xs).length ≤ xs.length := by
  induction mask generalizing xs with
  | nil => simp [maskSelect]
  | cons b bs ih =>
      cases xs with
      | nil => simp [maskSelect]
      | cons x xs =>
          by_cases hb : b = true
          · simpa [maskSelect, hb] using Nat.succ_le_succ (ih xs)
          · simp only [Bool.not_eq_true] at hb
            simp only [maskSelect, hb]
            exact Nat.le_succ_of_le (ih xs)

theorem maskSelect_flatten_length {α : Type} (k : ℕ) (mask : List Bool)
    (xs : List (List α)) (hlen : mask.length = xs.length)
    (hk : ∀ l ∈ xs, l.length = k) :
    ((maskSelect mask xs).flatten).length = k * mask.count true := by
  induction mask generalizing xs with
  | nil => simp [maskSelect]
  | cons b bs ih =>
      cases xs with
      | nil => simp at hlen
      | cons x xs =>
          have hx : x.length = k := hk x (by simp)
          have hxs : ∀ l ∈ xs, l.length = k := fun l hl => hk l (by simp [hl])
          have hlen2 : bs.length = xs.length := by simpa using hlen
          by_cases hb : b = true
          · simp [maskSelect, hb, hx, ih xs hlen2 hxs, List.count_cons,
              Nat.mul_succ, Nat.add_comm]
          · simp only [Bool.not_eq_true] at hb
            simp [maskSelect, hb, ih xs hlen2 hxs, List.count_cons]

theorem maskSelect_all_false {α : Type} (mask : List Bool) (xs : List α)
    (h : ∀ b ∈ mask, b = false) : maskSelect mask xs = [] := by
  induction mask generalizing xs with
  | nil => simp [maskSelect]
  | cons b bs ih =>
      cases xs with
      | nil => simp [maskSelect]
      | cons x xs =>
          have hb : b = false := h b (by simp)
          simp [maskSelect, hb, ih xs fun c hc => h c (by simp [hc])]

theorem count_true_add_count_not (l : List Bool) :
    l.count true + (l.map fun b => !b).count true = l.length := by
  induction l with
  | nil => simp
  | cons b bs ih => cases b <;> simp [List.count_cons, ih] <;> omega

theorem any_swing_false_of_all_contact (cf : List Bool)
    (h : ∀ b ∈ cf, b = true) : (swing_feet cf).any id = false := by
  rw [List.any_eq_false]
  intro x hx
  rcases List.mem_map.mp hx with ⟨a, ha, rfl⟩
  simp [h a ha]

theorem swing_all_false_of_all_contact (cf : List Bool)
    (h : ∀ b ∈ cf, b = true) : ∀ b ∈ swing_feet cf, b = false := by
  intro x hx
  rcases List.mem_map.mp hx with ⟨a, ha, rfl⟩
  simp [h a ha]

/-- Claim C6: each tick the stacked task vector is built in the fixed order
body orientation, body position, swing-foot positions, with dimension
`6 + 3 * num_swing`; the stacked Jacobian has the same row count; and with
all four feet in contact both reduce exactly to the body-only
6-dimensional case (lines 150-169 of `ControlLaw`). -/
theorem taskVec_dimension_and_reduction {α : Type} (cf : List Bool)
    (rpy pb : List ℝ) (pfeet : List (List ℝ))
    (Jbody : List α) (Jfeet : List (List α))
    (hcf : cf.length = 4) (hrpy : rpy.length = 3) (hpb : pb.length = 3)
    (hpf : pfeet.length = 4) (hpf3 : ∀ l ∈ pfeet, l.length = 3)
    (hJb : Jbody.length = 6) (hJf : Jfeet.length = 4)
    (hJf3 : ∀ l ∈ Jfeet, l.length = 3) :
    (taskVec cf rpy pb pfeet).length = 6 + 3 * num_swing cf
    ∧ (stackedRows cf Jbody Jfeet).length = 6 + 3 * num_swing cf
    ∧ ((∀ b ∈ cf, b = true) →
        taskVec cf rpy pb pfeet = rpy ++ pb
        ∧ stackedRows cf Jbody Jfeet = Jbody) := by
  have hsl : (swing_feet cf).length = 4 := by simp [swing_feet, hcf]
  have hx : ((maskSelect (swing_feet cf) pfeet).flatten).length
      = 3 * (swing_feet cf).count true :=
    maskSelect_flatten_length 3 _ _ (by rw [hsl, hpf]) hpf3
  have hJ : ((maskSelect (swing_feet cf) Jfeet).flatten).length
      = 3 * (swing_feet cf).count true :=
    maskSelect_flatten_length 3 _ _ (by rw [hsl, hJf]) hJf3
  refine ⟨?_, ?_, ?_⟩
  · simp only [taskVec, List.length_append, hrpy, hpb, hx, num_swing]
  · by_cases hany : (swing_feet cf).any id = true
    · simp only [stackedRows, hany, if_true, List.length_append, hJb, hJ,
        num_swing]
    · have hfalse : (swing_feet cf).any id = false := by
        simpa using hany
      have hzero : (swing_feet cf).count true = 0 := by
        rw [List.count_eq_zero]
        intro hmem
        have := (List.any_eq_false.mp hfalse) true hmem
        simp at this
      simp [stackedRows, hfalse, hJb, num_swing, hzero]
  · intro hall
    have hsel : maskSelect (swing_feet cf) pfeet = [] :=
      maskSelect_all_false _ _ (swing_all_false_of_all_contact cf hall)
    have hselJ : maskSelect (swing_feet cf) Jfeet = [] :=
      maskSelect_all_false _ _ (swing_all_false_of_all_contact cf hall)
    constructor
    · simp [taskVec, hsel]
    · simp [stackedRows, any_swing_false_of_all_contact cf hall, hselJ]

theorem taskVec_dimension_witness :
    taskVec [true, true, true, true] [0, 0, 0] [1, 1, 1]
        [[2, 2, 2], [2, 2, 2], [2, 2, 2], [2, 2, 2]]
      = [0, 0, 0] ++ [1, 1, 1]
    ∧ stackedRows [true, true, true, true] [0, 1, 2, 3, 4, 5]
        [[9, 9, 9], [9, 9, 9], [9, 9, 9], [9, 9, 9]]
      = ([0, 1, 2, 3, 4, 5] : List ℕ) :=
  (taskVec_dimension_and_reduction [true, true, true, true] [0, 0, 0]
      [1, 1, 1] [[2, 2, 2], [2, 2, 2], [2, 2, 2], [2, 2, 2]]
      [0, 1, 2, 3, 4, 5] [[9, 9, 9], [9, 9, 9], [9, 9, 9], [9, 9, 9]]
      rfl rfl rfl rfl (by simp) rfl rfl (by simp)).2.2 (by decide)

/-- Claim C9: the swing-foot set is the exact elementwise complement of the
contact-foot set (disjoint, and together covering all four feet), and the
QP gets exactly one contact-force variable per contact foot
(lines 98-101 and 189 of `ControlLaw`). -/
theorem foot_partition_and_force_vars (cf : List Bool) (h4 : cf.length = 4) :
    (∀ i, i < 4 → (swing_feet cf)[i]? = (cf[i]?.map fun b => !b))
    ∧ (∀ i, i < 4 →
        ¬(cf[i]? = some true ∧ (swing_feet cf)[i]? = some true))
    ∧ (∀ i, i < 4 → cf[i]? = some true ∨ (swing_feet cf)[i]? = some true)
    ∧ (f_c_vars cf).length = num_contact cf
    ∧ num_contact cf + num_swing cf = 4 := by
  have hmap : ∀ i : ℕ, (swing_feet cf)[i]? = (cf[i]?.map fun b => !b) := by
    intro i
    simp [swing_feet]
  have hsome : ∀ i, i < 4 → ∃ b, cf[i]? = some b := by
    intro i hi
    have hi4 : i < cf.length := by omega
    exact ⟨cf[i], List.getElem?_eq_getElem hi4⟩
  refine ⟨fun i _ => hmap i, ?_, ?_, ?_, ?_⟩
  · intro i hi
    rintro ⟨hc, hs⟩
    rw [hmap i, hc] at hs
    simp at hs
  · intro i hi
    rcases hsome i hi with ⟨b, hb⟩
    rw [hmap i, hb]
    cases b <;> simp
  · simp [f_c_vars, num_contact]
  · have := count_true_add_count_not cf
    simpa [num_contact, num_swing, swing_feet, h4] using this

theorem foot_partition_witness :
    (f_c_vars [true, false, true, true]).length
      = num_contact [true, false, true, true]
    ∧ num_contact [true, false, true, true]
        + num_swing [true, false, true, true] = 4 :=
  ⟨(foot_partition_and_force_vars [true, false, true, true] rfl).2.2.2.1,
   (foot_partition_and_force_vars [true, false, true, true] rfl).2.2.2.2⟩

theorem zipWith_sub_self (l : List ℝ) :
    List.zipWith (fun a b => a - b) l l = List.replicate l.length 0 := by
  induction l with
  | nil => simp
  | cons x xs ih => simp [ih, List.replicate_succ]

/-- Claim C10: the nominal orientation rates are converted with the
conversion of the **measured** body orientation (the shared `RPY_body`
object), so whenever the measured and nominal rpy rates coincide the
angular-velocity components of `xd_tilde` are exactly zero, even if the
measured and nominal orientations differ; and the angular part of the
`xdd_nom` target is the measured-orientation conversion of
`rpydd_body_nom`. -/
theorem shared_orientation_conversion (conv : List ℝ → List ℝ → List ℝ)
    (rpy_body rpy_body_nom rpyd_body rpyd_body_nom pd_body pd_body_nom
      rpydd_body_nom pdd_body_nom : List ℝ)
    (pd_s pd_s_nom pdd_s_nom : List (List ℝ))
    (hrate : rpyd_body = rpyd_body_nom)
    (h3 : (conv rpy_body rpyd_body).length = 3)
    (h3dd : (conv rpy_body rpydd_body_nom).length = 3) :
    (vec_sub (xd_meas conv rpy_body rpyd_body pd_body pd_s)
        (xd_nom_vec conv rpy_body rpy_body_nom rpyd_body_nom pd_body_nom
          pd_s_nom)).take 3
      = List.replicate 3 0
    ∧ (xdd_nom_vec conv rpy_body rpy_body_nom rpydd_body_nom pdd_body_nom
        pdd_s_nom).take 3
      = conv rpy_body rpydd_body_nom := by
  subst hrate
  constructor
  · rw [xd_meas, xd_nom_vec, vec_sub, List.append_assoc, List.append_assoc,
      List.zipWith_append _ _ _ _ _ rfl, zipWith_sub_self, h3]
    rw [List.take_append_of_le_length (by simp [h3])]
    simp [h3]
  · rw [xdd_nom_vec, List.append_assoc,
      List.take_append_of_le_length (by simp [h3dd])]
    simp [h3dd]

theorem shared_orientation_conversion_witness :
    (vec_sub (xd_meas (fun _ v => v) [1, 2, 3] [7, 8, 9] [0, 0, 0] [])
        (xd_nom_vec (fun _ v => v) [1, 2, 3] [4, 5, 6] [7, 8, 9]
          [1, 1, 1] [])).take 3
      = List.replicate 3 0
    ∧ (xdd_nom_vec (fun _ v => v) [1, 2, 3] [4, 5, 6] [2, 0, 0]
        [5, 5, 5] []).take 3
      = (fun _ v => v) [1, 2, 3] [2, 0, 0] :=
  shared_orientation_conversion (fun _ v => v) [1, 2, 3] [4, 5, 6]
    [7, 8, 9] [7, 8, 9] [0, 0, 0] [1, 1, 1] [2, 0, 0] [5, 5, 5] [] [] []
    rfl rfl rfl

/-! ### Certificate algebra -/

theorem smul_fromBlocks (r : ℝ) (A B C D : Matrix (Fin 6) (Fin 6) ℝ) :
    r • Matrix.fromBlocks A B C D
      = Matrix.fromBlocks (r • A) (r • B) (r • C) (r • D) := by
  ext i j
  rcases i with i | i <;> rcases j with j | j <;> rfl

theorem neg_fromBlocks (A B C D : Matrix (Fin 6) (Fin 6) ℝ) :
    -Matrix.fromBlocks A B C D
      = Matrix.fromBlocks (-A) (-B) (-C) (-D) := by
  ext i j
  rcases i with i | i <;> rcases j with j | j <;> rfl

theorem blk_mul (a b c d e f g h : ℝ) :
    blk a b c d * blk e f g h
      = blk (a * e + b * g) (a * f + b * h) (c * e + d * g)
          (c * f + d * h) := by
  simp only [blk, Matrix.fromBlocks_multiply, smul_mul_smul_comm, mul_one,
    add_smul]

theorem blk_add (a b c d e f g h : ℝ) :
    blk a b c d + blk e f g h
      = blk (a + e) (b + f) (c + g) (d + h) := by
  simp only [blk, Matrix.fromBlocks_add, add_smul]

theorem blk_neg (a b c d : ℝ) :
    -blk a b c d = blk (-a) (-b) (-c) (-d) := by
  simp only [blk, neg_fromBlocks, neg_smul]

theorem blk_smul (r a b c d : ℝ) :
    r • blk a b c d = blk (r * a) (r * b) (r * c) (r * d) := by
  simp only [blk, smul_fromBlocks, smul_smul]

theorem blk_zero : blk 0 0 0 0 = 0 := by
  simp [blk]

theorem blk_transpose (a b c d : ℝ) :
    (blk a b c d)ᵀ = blk a c b d := by
  simp [blk, Matrix.fromBlocks_transpose, Matrix.transpose_smul]

theorem blk_mulVec (a b c d : ℝ) (u w : Fin 6 → ℝ) :
    blk a b c d *ᵥ Sum.elim u w
      = Sum.elim (a • u + b • w) (c • u + d • w) := by
  have hu : Sum.elim u w ∘ Sum.inl = u := rfl
  have hw : Sum.elim u w ∘ Sum.inr = w := rfl
  simp [blk, Matrix.fromBlocks_mulVec, hu, hw, smul_mulVec_assoc]

theorem Fmat_eq_blk : Fmat = blk 0 1 0 0 := by
  simp [Fmat, blk]

theorem Qmat_eq_blk : Qmat = blk 100 0 0 100 := by
  rw [Qmat, blk, show (1 : Matrix (Fin 6 ⊕ Fin 6) (Fin 6 ⊕ Fin 6) ℝ)
      = Matrix.fromBlocks 1 0 0 1 from (Matrix.fromBlocks_one).symm,
    smul_fromBlocks]
  simp

theorem blk_congr {a b c d e f g h : ℝ} (ha : a = e) (hb : b = f)
    (hc : c = g) (hd : d = h) : blk a b c d = blk e f g h := by
  rw [ha, hb, hc, hd]

theorem G_R_Gt_eq_blk : Gmat * Rmat⁻¹ * Gmatᵀ = blk 0 0 0 1 := by
  have hR : Rmat⁻¹ = 1 := by
    rw [Rmat, inv_one]
  rw [hR, Matrix.mul_one, Gmat, Matrix.transpose_fromRows,
    Matrix.fromRows_mul_fromColumns]
  simp [blk]

theorem careP_solves_riccati :
    Fmatᵀ * careP + careP * Fmat
      - careP * Gmat * Rmat⁻¹ * Gmatᵀ * careP + Qmat = 0 := by
  have hs : Real.sqrt 120 * Real.sqrt 120 = 120 :=
    Real.mul_self_sqrt (by norm_num)
  have hmid : careP * Gmat * Rmat⁻¹ * Gmatᵀ * careP
      = careP * (Gmat * Rmat⁻¹ * Gmatᵀ) * careP := by
    simp only [Matrix.mul_assoc]
  rw [hmid, G_R_Gt_eq_blk, careP, Fmat_eq_blk, Qmat_eq_blk, blk_transpose,
    sub_eq_add_neg]
  simp only [blk_mul, blk_neg, blk_add]
  rw [← blk_zero]
  apply blk_congr <;> nlinarith [hs]

theorem careP_symm : carePᵀ = careP := by
  rw [careP, blk_transpose]

theorem clf_quad_nonneg (x y : ℝ) :
    0 ≤ x * (10 * Real.sqrt 120 * x + 10 * y)
      + y * (10 * x + Real.sqrt 120 * y) := by
  have hs : Real.sqrt 120 * Real.sqrt 120 = 120 :=
    Real.mul_self_sqrt (by norm_num)
  have hpos : 0 < Real.sqrt 120 := Real.sqrt_pos.mpr (by norm_num)
  nlinarith [sq_nonneg (10 * Real.sqrt 120 * x + 10 * y), sq_nonneg y,
    hpos, hs]

theorem clf_quad_pos (x y : ℝ) (h : ¬(x = 0 ∧ y = 0)) :
    0 < x * (10 * Real.sqrt 120 * x + 10 * y)
      + y * (10 * x + Real.sqrt 120 * y) := by
  have hs : Real.sqrt 120 * Real.sqrt 120 = 120 :=
    Real.mul_self_sqrt (by norm_num)
  have hpos : 0 < Real.sqrt 120 := Real.sqrt_pos.mpr (by norm_num)
  by_cases hy : y = 0
  · have hx : x ≠ 0 := fun hx => h ⟨hx, hy⟩
    subst hy
    have hxx : 0 < x * x := mul_self_pos.mpr hx
    nlinarith [mul_pos hpos hxx]
  · have hyy : 0 < y * y := mul_self_pos.mpr hy
    nlinarith [sq_nonneg (10 * Real.sqrt 120 * x + 10 * y), hyy, hpos, hs]

theorem careP_posDef : careP.PosDef := by
  constructor
  · ext i j
    rw [Matrix.conjTranspose_apply, star_trivial]
    have h1 : carePᵀ i j = careP i j := by rw [careP_symm]
    simpa [Matrix.transpose_apply] using h1
  · intro v hv
    have hstar : star v = v := by
      funext i
      exact star_trivial _
    rw [hstar]
    obtain ⟨u, w, rfl⟩ : ∃ u w, v = Sum.elim u w :=
      ⟨fun i => v (Sum.inl i), fun i => v (Sum.inr i), by
        funext i
        cases i <;> rfl⟩
    rw [careP, blk_mulVec, Matrix.sum_elim_dotProduct_sum_elim]
    simp only [dotProduct, Pi.add_apply, Pi.smul_apply, smul_eq_mul,
      ← Finset.sum_add_distrib]
    obtain ⟨idx, hidx⟩ := Function.ne_iff.mp hv
    apply Finset.sum_pos'
    · intro i _
      exact clf_quad_nonneg _ _
    · cases idx with
      | inl k =>
          refine ⟨k, Finset.mem_univ k, clf_quad_pos _ _ fun hz => ?_⟩
          simp only [Sum.elim_inl, Pi.zero_apply] at hidx
          exact hidx hz.1
      | inr k =>
          refine ⟨k, Finset.mem_univ k, clf_quad_pos _ _ fun hz => ?_⟩
          simp only [Sum.elim_inr, Pi.zero_apply] at hidx
          exact hidx hz.2

theorem careP_sq :
    careP * careP + (1100 : ℝ) • 1 = (11 * Real.sqrt 120) • careP := by
  have hs : Real.sqrt 120 * Real.sqrt 120 = 120 :=
    Real.mul_self_sqrt (by norm_num)
  have hone : (1 : Matrix (Fin 6 ⊕ Fin 6) (Fin 6 ⊕ Fin 6) ℝ)
      = blk 1 0 0 1 := by
    simp [blk, Matrix.fromBlocks_one]
  rw [careP, blk_mul, hone, blk_smul, blk_smul, blk_add]
  apply blk_congr <;> nlinarith [hs]

theorem lamMaxP_char :
    lamMaxP * lamMaxP - 11 * Real.sqrt 120 * lamMaxP + 1100 = 0 := by
  have hs : Real.sqrt 120 * Real.sqrt 120 = 120 :=
    Real.mul_self_sqrt (by norm_num)
  have hr : Real.sqrt 2530 * Real.sqrt 2530 = 2530 :=
    Real.mul_self_sqrt (by norm_num)
  rw [lamMaxP]
  nlinarith [hs, hr]

theorem careP_eigenvalue_bound (mu : ℝ) (v : Fin 6 ⊕ Fin 6 → ℝ)
    (hv : v ≠ 0) (heig : careP *ᵥ v = mu • v) : mu ≤ lamMaxP := by
  have hs : Real.sqrt 120 * Real.sqrt 120 = 120 :=
    Real.mul_self_sqrt (by norm_num)
  have hr : Real.sqrt 2530 * Real.sqrt 2530 = 2530 :=
    Real.mul_self_sqrt (by norm_num)
  have hr0 : 0 ≤ Real.sqrt 2530 := Real.sqrt_nonneg _
  obtain ⟨i, hi⟩ := Function.ne_iff.mp hv
  have h2 : careP *ᵥ (careP *ᵥ v) = (mu * mu) • v := by
    rw [heig, Matrix.mulVec_smul, heig, smul_smul]
  have h3 := congrArg (fun M => M *ᵥ v) careP_sq
  simp only [Matrix.add_mulVec, Matrix.smul_mulVec_assoc,
    Matrix.one_mulVec, ← Matrix.mulVec_mulVec] at h3
  rw [h2, heig] at h3
  have h4 := congrFun h3 i
  simp only [Pi.add_apply, Pi.smul_apply, smul_eq_mul] at h4
  have h5 : (mu * mu - 11 * Real.sqrt 120 * mu + 1100) * v i = 0 := by
    ring_nf
    ring_nf at h4
    linarith [h4]
  rcases mul_eq_zero.mp h5 with h6 | h6
  · by_contra hgt
    push_neg at hgt
    rw [lamMaxP] at hgt
    have h7 : 0 < mu - 11 * Real.sqrt 120 / 2 - Real.sqrt 2530 := by
      linarith
    have h8 : 0 < mu - 11 * Real.sqrt 120 / 2 + Real.sqrt 2530 := by
      linarith
    nlinarith [mul_pos h7 h8, h6, hs, hr]
  · exact absurd h6 hi

theorem vPlus_ne_zero : vPlus ≠ 0 := by
  intro h
  have h0 := congrFun h (Sum.inl 0)
  simp [vPlus] at h0

theorem careP_eigenvalue_attained : careP *ᵥ vPlus = lamMaxP • vPlus := by
  have hs : Real.sqrt 120 * Real.sqrt 120 = 120 :=
    Real.mul_self_sqrt (by norm_num)
  have hchar := lamMaxP_char
  rw [careP, vPlus, blk_mulVec]
  funext i
  cases i with
  | inl k =>
      rcases eq_or_ne k 0 with hk | hk
      · simp only [hk, Pi.add_apply, Pi.smul_apply, smul_eq_mul, Sum.elim_inl]
        simp only [if_true]
        ring
      · simp [hk, Pi.add_apply, Pi.smul_apply, smul_eq_mul]
  | inr k =>
      rcases eq_or_ne k 0 with hk | hk
      · simp only [hk, Pi.add_apply, Pi.smul_apply, smul_eq_mul, if_pos
          rfl, Sum.elim_inr]
        simp only [if_true]
        linear_combination (-1 : ℝ) * hchar + (-10 : ℝ) * hs
      · simp [hk, Pi.add_apply, Pi.smul_apply, smul_eq_mul]

theorem Qmat_eigenvalues (mu : ℝ) (v : Fin 6 ⊕ Fin 6 → ℝ) (hv : v ≠ 0)
    (heig : Qmat *ᵥ v = mu • v) : mu = 100 := by
  obtain ⟨i, hi⟩ := Function.ne_iff.mp hv
  have h1 : Qmat *ᵥ v = (100 : ℝ) • v := by
    rw [Qmat, Matrix.smul_mulVec_assoc, Matrix.one_mulVec]
  have h2 := congrFun (h1.symm.trans heig) i
  simp only [Pi.smul_apply, smul_eq_mul] at h2
  exact (mul_right_cancel₀ hi h2).symm

theorem lamMaxP_pos : 0 < lamMaxP := by
  rw [lamMaxP]
  positivity

theorem clf_gamma_pos : 0 < lamMinQ / lamMaxP :=
  div_pos (by rw [lamMinQ]; norm_num) lamMaxP_pos

/-- Claim C4: at construction, with the fixed weights `Q = 100 I` and
`R = I` and the double-integrator pair `(F, G)`, the certificate matrix
`P` returned by the Riccati solver is symmetric positive-definite (it is
the solution of the continuous algebraic Riccati equation), and the
stored decay rate `gamma = lamMinQ / lamMaxP` is strictly positive. -/
theorem certificate_P_posdef_and_gamma_pos :
    clfController.Pᵀ = clfController.P
    ∧ clfController.P.PosDef
    ∧ Fmatᵀ * clfController.P + clfController.P * Fmat
        - clfController.P * Gmat * Rmat⁻¹ * Gmatᵀ * clfController.P
        + Qmat = 0
    ∧ clfController.gamma = lamMinQ / lamMaxP
    ∧ 0 < clfController.gamma :=
  ⟨careP_symm, careP_posDef, careP_solves_riccati, rfl, clf_gamma_pos⟩

/-! ### The CLF inequality constraint -/

theorem holds_iff_vdotSpec (self : Controller) {nv : ℕ}
    (x_tilde xd_tilde : Fin 6 → ℝ) (J : Matrix (Fin 6) (Fin nv) ℝ)
    (Jdv xdd_nom : Fin 6 → ℝ) (vd : Fin nv → ℝ) (delta : ℝ) :
    (self.AddVdotConstraint x_tilde xd_tilde J Jdv xdd_nom).holds vd delta
    ↔ self.VdotSpec x_tilde xd_tilde J vd Jdv xdd_nom
        ≤ -self.gamma * self.lyapV x_tilde xd_tilde + delta := by
  simp only [Controller.AddVdotConstraint, VdotConstraintData.holds,
    Controller.VdotSpec, dotProduct_mulVec, dotProduct_add, dotProduct_sub]
  constructor
  · rintro ⟨-, h⟩
    linarith
  · intro h
    refine ⟨?_, ?_⟩
    · intro lbv hlbv
      exact absurd hlbv (by simp)
    · linarith

theorem VdotLogged_eq_VdotSpec (self : Controller) {nv : ℕ}
    (x_tilde xd_tilde : Fin 6 → ℝ) (J : Matrix (Fin 6) (Fin nv) ℝ)
    (vd : Fin nv → ℝ) (Jdv xdd_nom : Fin 6 → ℝ) :
    self.VdotLogged x_tilde xd_tilde J vd Jdv xdd_nom
      = self.VdotSpec x_tilde xd_tilde J vd Jdv xdd_nom := by
  simp only [Controller.VdotLogged, Controller.VdotSpec, dotProduct_mulVec,
    dotProduct_add, dotProduct_sub]

/-- Claim C1: the constraint added by `AddVdotConstraint` is exactly the
linearization of `Vdot <= -gamma V + delta`: its row has the coefficients
`2 etaᵀ P G J` on `vd` and `-1` on `delta`, it has no lower bound, and for
every `eta`, `J`, `Jdv`, `xdd_nom`, `vd`, `delta` it holds iff
`Vdot <= -gamma V + delta` with `Vdot = 2 etaᵀ P (F eta + G nu)`,
`nu = J vd + Jdv - xdd_nom`. -/
theorem clf_constraint_is_linearized_decrease {nv : ℕ}
    (x_tilde xd_tilde : Fin 6 → ℝ) (J : Matrix (Fin 6) (Fin nv) ℝ)
    (Jdv xdd_nom : Fin 6 → ℝ) (vd : Fin nv → ℝ) (delta : ℝ) :
    (clfController.AddVdotConstraint x_tilde xd_tilde J Jdv xdd_nom).lb
        = none
    ∧ (clfController.AddVdotConstraint x_tilde xd_tilde J Jdv
        xdd_nom).coeffDelta = -1
    ∧ ((clfController.AddVdotConstraint x_tilde xd_tilde J Jdv
          xdd_nom).holds vd delta
        ↔ clfController.VdotSpec x_tilde xd_tilde J vd Jdv xdd_nom
            ≤ -clfController.gamma * clfController.lyapV x_tilde xd_tilde
              + delta) :=
  ⟨rfl, rfl,
    holds_iff_vdotSpec clfController x_tilde xd_tilde J Jdv xdd_nom vd
      delta⟩

/-- Claim C2: at any point satisfying the CLF constraint and the slack
sign constraint (as any accepted solve does), the recomputed diagnostic
`Vdot` of line 223 satisfies `Vdot <= -gamma V + delta` and hence
`Vdot <= -gamma V`. -/
theorem accepted_solution_decrease {nv : ℕ}
    (x_tilde xd_tilde : Fin 6 → ℝ) (J : Matrix (Fin 6) (Fin nv) ℝ)
    (Jdv xdd_nom : Fin 6 → ℝ) (vd : Fin nv → ℝ) (delta : ℝ)
    (hC : (clfController.AddVdotConstraint x_tilde xd_tilde J Jdv
        xdd_nom).holds vd delta)
    (hdelta : delta ≤ 0) :
    clfController.VdotLogged x_tilde xd_tilde J vd Jdv xdd_nom
      ≤ -clfController.gamma * clfController.lyapV x_tilde xd_tilde + delta
    ∧ clfController.VdotLogged x_tilde xd_tilde J vd Jdv xdd_nom
      ≤ -clfController.gamma * clfController.lyapV x_tilde xd_tilde := by
  have h1 :=
    (holds_iff_vdotSpec clfController x_tilde xd_tilde J Jdv xdd_nom vd
      delta).mp hC
  rw [VdotLogged_eq_VdotSpec]
  exact ⟨h1, by linarith⟩

theorem eta_zero : eta (0 : Fin 6 → ℝ) 0 = 0 := by
  funext i
  cases i <;> rfl

theorem lyapV_zero (self : Controller) : self.lyapV 0 0 = 0 := by
  simp [Controller.lyapV, eta_zero]

theorem addVdot_zero_coeffVd (self : Controller) {nv : ℕ}
    (J : Matrix (Fin 6) (Fin nv) ℝ) (Jdv xdd_nom : Fin 6 → ℝ) :
    (self.AddVdotConstraint (0 : Fin 6 → ℝ) 0 J Jdv xdd_nom).coeffVd
      = 0 := by
  simp [Controller.AddVdotConstraint, eta_zero]

theorem holds_zero_iff (self : Controller) {nv : ℕ}
    (J : Matrix (Fin 6) (Fin nv) ℝ) (Jdv xdd_nom : Fin 6 → ℝ)
    (vd : Fin nv → ℝ) (delta : ℝ) :
    (self.AddVdotConstraint (0 : Fin 6 → ℝ) 0 J Jdv xdd_nom).holds vd delta
      ↔ 0 ≤ delta := by
  simp [Controller.AddVdotConstraint, VdotConstraintData.holds,
    Controller.lyapV, eta_zero, neg_one_mul]

/-- Claim C5: with zero task-space error, `V = 0`, the vd coefficients of
the CLF constraint vanish, the constraint reduces exactly to `0 <= delta`
(so with the slack-sign constraint it forces `delta = 0`), and it is
satisfied by `delta = 0`. -/
theorem clf_constraint_at_zero_error {nv : ℕ}
    (J : Matrix (Fin 6) (Fin nv) ℝ) (Jdv xdd_nom : Fin 6 → ℝ) :
    clfController.lyapV 0 0 = 0
    ∧ (clfController.AddVdotConstraint (0 : Fin 6 → ℝ) 0 J Jdv
        xdd_nom).coeffVd = 0
    ∧ (∀ (vd : Fin nv → ℝ) (delta : ℝ),
        (clfController.AddVdotConstraint (0 : Fin 6 → ℝ) 0 J Jdv
          xdd_nom).holds vd delta ↔ 0 ≤ delta)
    ∧ (∀ (vd : Fin nv → ℝ) (delta : ℝ),
        (clfController.AddVdotConstraint (0 : Fin 6 → ℝ) 0 J Jdv
          xdd_nom).holds vd delta → delta ≤ 0 → delta = 0)
    ∧ (∀ vd : Fin nv → ℝ,
        (clfController.AddVdotConstraint (0 : Fin 6 → ℝ) 0 J Jdv
          xdd_nom).holds vd 0) :=
  ⟨lyapV_zero clfController, addVdot_zero_coeffVd clfController J Jdv
      xdd_nom,
    fun vd delta => holds_zero_iff clfController J Jdv xdd_nom vd delta,
    fun vd delta h hle =>
      le_antisymm hle
        ((holds_zero_iff clfController J Jdv xdd_nom vd delta).mp h),
    fun vd =>
      (holds_zero_iff clfController J Jdv xdd_nom vd 0).mpr le_rfl⟩

theorem clf_constraint_at_zero_error_witness :
    (clfController.AddVdotConstraint (0 : Fin 6 → ℝ) 0
        (0 : Matrix (Fin 6) (Fin 1) ℝ) 0 0).holds 0 0 :=
  (clf_constraint_at_zero_error (0 : Matrix (Fin 6) (Fin 1) ℝ) 0
    0).2.2.2.2 0

theorem accepted_solution_decrease_witness :
    clfController.VdotLogged (0 : Fin 6 → ℝ) 0
        (0 : Matrix (Fin 6) (Fin 1) ℝ) 0 0 0
      ≤ -clfController.gamma * clfController.lyapV 0 0 :=
  (accepted_solution_decrease (0 : Fin 6 → ℝ) 0
      (0 : Matrix (Fin 6) (Fin 1) ℝ) 0 0 0 0
      ((holds_zero_iff clfController (0 : Matrix (Fin 6) (Fin 1) ℝ) 0 0 0
          0).mpr le_rfl)
      le_rfl).2

/-! ### Solve tail, diagnostics, and constraint assembly -/

/-- Claim C3: if the per-tick solve does not report success, the control
law fails at the `assert` and returns no torque at all; on success it
returns exactly the solved `tau`. -/
theorem solve_failure_is_fatal {nv na : ℕ} (x_tilde xd_tilde : Fin 6 → ℝ)
    (J : Matrix (Fin 6) (Fin nv) ℝ) (Jdv xdd_nom : Fin 6 → ℝ)
    (r : SolveResult nv na) :
    (r.success = false →
      clfController.solveTail x_tilde xd_tilde J Jdv xdd_nom r = none)
    ∧ (r.success = true →
      clfController.solveTail x_tilde xd_tilde J Jdv xdd_nom r
        = some (r.tauSol,
            clfController.tickDiagnostics x_tilde xd_tilde J r.vdSol Jdv
              xdd_nom)) := by
  constructor <;> intro h <;> simp [Controller.solveTail, h]

theorem solve_failure_is_fatal_witness :
    clfController.solveTail (0 : Fin 6 → ℝ) 0
        (0 : Matrix (Fin 6) (Fin 1) ℝ) 0 0
        (⟨false, 0, 0⟩ : SolveResult 1 1) = none :=
  (solve_failure_is_fatal (0 : Fin 6 → ℝ) 0 (0 : Matrix (Fin 6) (Fin 1) ℝ)
    0 0 (⟨false, 0, 0⟩ : SolveResult 1 1)).1 rfl

/-- Claim C8 (amended): after every accepted solve the controller stores
as diagnostics `V = etaᵀ P eta`, `Vdot` evaluated at the solved `vd`, and
the **squared** tracking-error norm `x_tildeᵀ x_tilde` (the square of the
Euclidean norm, not the norm itself). -/
theorem diagnostics_recomputed {nv na : ℕ} (x_tilde xd_tilde : Fin 6 → ℝ)
    (J : Matrix (Fin 6) (Fin nv) ℝ) (Jdv xdd_nom : Fin 6 → ℝ)
    (r : SolveResult nv na) (h : r.success = true) :
    clfController.solveTail x_tilde xd_tilde J Jdv xdd_nom r
      = some (r.tauSol,
          clfController.tickDiagnostics x_tilde xd_tilde J r.vdSol Jdv
            xdd_nom)
    ∧ (clfController.tickDiagnostics x_tilde xd_tilde J r.vdSol Jdv
        xdd_nom).V = clfController.lyapV x_tilde xd_tilde
    ∧ (clfController.tickDiagnostics x_tilde xd_tilde J r.vdSol Jdv
        xdd_nom).Vdot
        = clfController.VdotSpec x_tilde xd_tilde J r.vdSol Jdv xdd_nom
    ∧ (clfController.tickDiagnostics x_tilde xd_tilde J r.vdSol Jdv
        xdd_nom).err = euclNorm x_tilde ^ 2 := by
  have hnn : 0 ≤ x_tilde ⬝ᵥ x_tilde := by
    simp only [dotProduct]
    exact Finset.sum_nonneg fun i _ => mul_self_nonneg _
  refine ⟨by simp [Controller.solveTail, h], rfl,
    VdotLogged_eq_VdotSpec clfController x_tilde xd_tilde J r.vdSol Jdv
      xdd_nom, ?_⟩
  simp [Controller.tickDiagnostics, euclNorm, Real.sq_sqrt hnn]

theorem diagnostics_recomputed_witness :
    (clfController.tickDiagnostics (0 : Fin 6 → ℝ) 0
        (0 : Matrix (Fin 6) (Fin 1) ℝ)
        ((⟨true, 0, 0⟩ : SolveResult 1 1).vdSol) 0 0).err
      = euclNorm 0 ^ 2 :=
  (diagnostics_recomputed (0 : Fin 6 → ℝ) 0
    (0 : Matrix (Fin 6) (Fin 1) ℝ) 0 0 (⟨true, 0, 0⟩ : SolveResult 1 1)
    rfl).2.2.2

/-- Counterexample to claim C8 as stated: the stored `err` diagnostic is
`x_tildeᵀ x_tilde`, which at `x_tilde = (2, 0, 0, 0, 0, 0)` equals `4`
and differs from the tracking-error norm `2`. -/
theorem err_diagnostic_is_not_the_norm :
    (clfController.tickDiagnostics
        (fun i => if i = 0 then (2 : ℝ) else 0) 0
        (0 : Matrix (Fin 6) (Fin 1) ℝ) 0 0 0).err
      ≠ euclNorm (fun i => if i = 0 then (2 : ℝ) else 0) := by
  have h1 : ((fun i : Fin 6 => if i = 0 then (2 : ℝ) else 0)
      ⬝ᵥ fun i : Fin 6 => if i = 0 then (2 : ℝ) else 0) = 4 := by
    simp [dotProduct, Fin.sum_univ_six]
    norm_num
  have h2 : euclNorm (fun i => if i = 0 then (2 : ℝ) else 0) = 2 := by
    rw [euclNorm, h1, show (4 : ℝ) = 2 ^ 2 by norm_num,
      Real.sqrt_sq (by norm_num)]
  have h3 : (clfController.tickDiagnostics
      (fun i => if i = 0 then (2 : ℝ) else 0) 0
      (0 : Matrix (Fin 6) (Fin 1) ℝ) 0 0 0).err = 4 := by
    simp only [Controller.tickDiagnostics]
    exact h1
  rw [h3, h2]
  norm_num

/-- Claim C7: the dynamics equality is always added; when no foot is in
contact there are no friction and no no-slip constraints, the
contact-force variable list is empty, and the dynamics equality reduces
to `M vd + Cv + tau_g = Sᵀ tau`; when at least one foot is in contact,
both the friction and the no-slip constraints are added
(lines 189 and 204-212). -/
theorem contact_constraint_presence {nv na : ℕ} (cf : List Bool)
    (M : Matrix (Fin nv) (Fin nv) ℝ) (Cv tau_g : Fin nv → ℝ)
    (S : Matrix (Fin na) (Fin nv) ℝ)
    (Jfeet : List (Matrix (Fin 3) (Fin nv) ℝ)) (fcs : List (Fin 3 → ℝ))
    (vd : Fin nv → ℝ) (tau : Fin na → ℝ) :
    QPConstraintKind.dynamics ∈ tick_constraints cf
    ∧ (cf.any id = false →
        QPConstraintKind.friction ∉ tick_constraints cf
        ∧ QPConstraintKind.noslip ∉ tick_constraints cf
        ∧ f_c_vars cf = []
        ∧ (dynamicsConstraint M Cv tau_g S (maskSelect cf Jfeet) fcs vd
            tau
          ↔ M *ᵥ vd + Cv + tau_g = Sᵀ *ᵥ tau))
    ∧ (cf.any id = true →
        QPConstraintKind.friction ∈ tick_constraints cf
        ∧ QPConstraintKind.noslip ∈ tick_constraints cf) := by
  refine ⟨by simp [tick_constraints], fun hno => ?_, fun hyes => ?_⟩
  · have hall : ∀ b ∈ cf, b = false := by
      intro b hb
      have := (List.any_eq_false.mp hno) b hb
      simpa using this
    have hcount : cf.count true = 0 := by
      rw [List.count_eq_zero]
      intro hmem
      exact absurd (hall true hmem) (by simp)
    have hsel : maskSelect cf Jfeet = [] := maskSelect_all_false cf Jfeet
      hall
    refine ⟨by simp [tick_constraints, hno], by simp [tick_constraints,
      hno], by simp [f_c_vars, num_contact, hcount], ?_⟩
    rw [dynamicsConstraint, hsel]
    simp
  · exact ⟨by simp [tick_constraints, hyes], by simp [tick_constraints,
      hyes]⟩

theorem contact_constraint_presence_witness :
    QPConstraintKind.friction
        ∉ tick_constraints [false, false, false, false]
    ∧ f_c_vars [false, false, false, false] = [] :=
  ⟨((contact_constraint_presence [false, false, false, false]
        (0 : Matrix (Fin 1) (Fin 1) ℝ) 0 0 (0 : Matrix (Fin 1) (Fin 1) ℝ)
        [] [] 0 0).2.1 rfl).1,
    ((contact_constraint_presence [false, false, false, false]
        (0 : Matrix (Fin 1) (Fin 1) ℝ) 0 0 (0 : Matrix (Fin 1) (Fin 1) ℝ)
        [] [] 0 0).2.1 rfl).2.2.1⟩
